import Mathlib

/-!
Shallow embedding of `src/main.rs` of the `reps` repository: an interactive
terminal countdown tool for timed workout repetitions.

Modelling choices:
- A `KeyEvent` is one item yielded by the async stdin byte iterator
  (`Result<u8, io::Error>` in the source): `Except.ok b` is byte `b`,
  `Except.error msg` is a read error whose display text is `msg`.
- A `Batch` is the finite list of events buffered on stdin at the moment one
  call to `consume_all_keystrokes` runs; the iterator yields `None` once the
  batch is exhausted, which ends that call.
- Session-level input is a `List Batch`: the n-th poll of the run sees the
  n-th batch.  When the list is exhausted, every further poll sees an empty
  batch (no keystroke ever arrives any more).  Because the inner pause loop
  would then spin forever, functions that poll repeatedly return an
  `Option`, with `none` marking that divergence.
- Side effects are recorded as a trace of `Action`s: each `print_message`
  call is a `render`, each `thread::sleep` a `sleep` (in milliseconds), and
  `main`'s terminal handling appears as dedicated actions.
-/

namespace Reps

/-- One item of the async stdin byte iterator (`Result<u8, io::Error>`). -/
abbrev KeyEvent := Except String Nat

/-- The events buffered on stdin when one `consume_all_keystrokes` call runs. -/
abbrev Batch := List KeyEvent

/-- Phase accent colors used by the source (`color::Blue/Red/Green`). -/
inductive Color where
  | blue
  | red
  | green
deriving DecidableEq

/-- One full-screen frame printed by `print_message`:
`count c label sec` is the countdown frame (label in color `c`, the remaining
seconds `sec` on the next line), `pause` is the fixed "PAUSE" message of
`handle_pause`. -/
inductive Frame where
  | count (c : Color) (label : String) (sec : Nat)
  | pause
deriving DecidableEq

/-- One observable side effect of the program. -/
inductive Action where
  | render (f : Frame)
  | sleep (ms : Nat)
  | enterRaw
  | clearAndHide
  | resetScreen
  | restoreMode
  | printLine (s : String)
deriving DecidableEq

/-- The `loop` of `consume_all_keystrokes`, with `return_value` the mutable
local of the Rust function.  The second component of the result is the part
of the batch the iterator has not consumed when the function returns.
The Rust `match` arms `Ok(27)`, `Ok(3)`, `Err(e)`, `Ok(_)` appear here as a
match on the constructor followed by equality tests on the byte. -/
def consumeLoop (return_value : Option Unit) : Batch → Except String (Option Unit) × Batch
  | [] => (Except.ok return_value, [])
  | e :: rest =>
    match e with
    | Except.ok b =>
      if b = 27 then (Except.error "Exiting", rest)
      else if b = 3 then (Except.error "Exiting", rest)
      else consumeLoop (some ()) rest
    | Except.error er => (Except.error ("Error: " ++ er), rest)

/-- `consume_all_keystrokes` from the source: drain the batch currently
buffered on stdin, classifying it.  Returns the Rust result paired with the
unconsumed remainder of the batch. -/
def consume_all_keystrokes (stdin : Batch) : Except String (Option Unit) × Batch :=
  consumeLoop none stdin

/-- The `while consume_all_keystrokes(stdin)?.is_none()` loop of
`handle_pause`.  Takes the list of batches the successive polls will see and
returns the Rust result, the unread batches, and the emitted actions; `none`
when the input list is exhausted while still paused (the Rust loop then
spins forever). -/
def pauseLoop : List Batch → Option (Except String Unit × List Batch × List Action)
  | [] => none
  | b :: rest =>
    match consume_all_keystrokes b with
    | (Except.error e, _) => some (Except.error e, rest, [])
    | (Except.ok (some _), _) => some (Except.ok (), rest, [])
    | (Except.ok none, _) =>
      match pauseLoop rest with
      | none => none
      | some (r, rem, evs) => some (r, rem, Action.sleep 500 :: evs)

/-- `handle_pause` from the source: poll once; on activity print "PAUSE" and
poll every 500 ms until a new activity resumes; propagate exit requests and
read errors. -/
def handle_pause : List Batch → Option (Except String Unit × List Batch × List Action)
  | [] => some (Except.ok (), [], [])
  | b :: rest =>
    match consume_all_keystrokes b with
    | (Except.error e, _) => some (Except.error e, rest, [])
    | (Except.ok none, _) => some (Except.ok (), rest, [])
    | (Except.ok (some _), _) =>
      match pauseLoop rest with
      | none => none
      | some (r, rem, evs) => some (r, rem, Action.render Frame.pause :: evs)

/-- `countdown` from the source: `for sec in (1..=count).rev()` print the
frame, sleep one second, then run `handle_pause`, propagating its errors
with `?`.  (Arguments are reordered so that the recursion is on `count`;
the Rust signature is `countdown(stdin, label, count, color)`.) -/
def countdown (label : String) (c : Color) : Nat → List Batch → Option (Except String Unit × List Batch × List Action)
  | 0, input => some (Except.ok (), input, [])
  | n + 1, input =>
    match handle_pause input with
    | none => none
    | some (Except.error e, rem, pevs) =>
      some (Except.error e, rem,
        Action.render (Frame.count c label (n + 1)) :: Action.sleep 1000 :: pevs)
    | some (Except.ok _, rem, pevs) =>
      match countdown label c n rem with
      | none => none
      | some (r, rem2, evs) =>
        some (r, rem2,
          Action.render (Frame.count c label (n + 1)) :: Action.sleep 1000 :: (pevs ++ evs))

/-- The `for rep in 1..=reps` loop of `start_reps`, by recursion on the
number `k` of repetitions still to run: when `k + 1` remain the current rep
index is `reps - k` (so the indices run `1, 2, …, reps` in order). -/
def repsLoop (reps time time_between_reps : Nat) : Nat → List Batch → Option (Except String Unit × List Batch × List Action)
  | 0, input => some (Except.ok (), input, [])
  | k + 1, input =>
    match countdown ("Rep " ++ toString (reps - k) ++ "/" ++ toString reps) Color.red time input with
    | none => none
    | some (Except.error e, rem, evs) => some (Except.error e, rem, evs)
    | some (Except.ok _, rem, evs) =>
      match countdown "Relax!" Color.green time_between_reps rem with
      | none => none
      | some (Except.error e, rem2, evs2) => some (Except.error e, rem2, evs ++ evs2)
      | some (Except.ok _, rem2, evs2) =>
        match repsLoop reps time time_between_reps k rem2 with
        | none => none
        | some (r, rem3, evs3) => some (r, rem3, evs ++ evs2 ++ evs3)

/-- `start_reps` from the source: the intro countdown ("Starting in", 3 s,
blue), then for each rep the active countdown (red) and the relax countdown
(green); `?` propagates the first error and skips the remaining phases. -/
def start_reps (reps time time_between_reps : Nat) (input : List Batch) : Option (Except String Unit × List Batch × List Action) :=
  match countdown "Starting in" Color.blue 3 input with
  | none => none
  | some (Except.error e, rem, evs) => some (Except.error e, rem, evs)
  | some (Except.ok _, rem, evs) =>
    match repsLoop reps time time_between_reps reps rem with
    | none => none
    | some (r, rem2, evs2) => some (r, rem2, evs ++ evs2)

/-- Rust `u32::from_str` as invoked by clap's `value_t!` macro in
`parse_args`: an optional leading plus sign, then one or more ASCII digits,
and the value must fit in 32 bits.  There is no positivity check. -/
def parse_u32 (s : String) : Option Nat :=
  let cs := match s.data with
    | '+' :: rest => rest
    | cs => cs
  if cs.isEmpty then none
  else if cs.all Char.isDigit then
    let n := cs.foldl (fun a ch => a * 10 + (ch.toNat - 48)) 0
    if n < 2 ^ 32 then some n else none
  else none

/-- The `Options` struct of the source. -/
structure Options where
  num_reps : Nat
  rep_time : Nat
  relax_time : Nat
deriving DecidableEq

/-- `parse_args` from the source: three required positional arguments, each
parsed as a `u32`; any other argument list is a clap error. -/
def parse_args (argv : List String) : Option Options :=
  match argv with
  | [a, b, c] =>
    match parse_u32 a, parse_u32 b, parse_u32 c with
    | some n, some t, some x => some ⟨n, t, x⟩
    | _, _, _ => none
  | _ => none

/-- The final message printed by `main`: "done" on success, the abort reason
otherwise. -/
def finalMessage : Except String Unit → String
  | Except.ok _ => "done"
  | Except.error e => e

/-- `main` from the source, as a function from the argument list and the
stdin batches to the process exit code and the action trace.  On a parse
error clap's usage message is printed (its text is produced by the library
and not modelled) and the process exits 1; otherwise the terminal is put in
raw mode, the screen cleared and the cursor hidden, `start_reps` runs, the
screen and cursor are reset, raw mode is restored, and the final message is
printed, exiting 0. -/
def main (argv : List String) (input : List Batch) : Option (Nat × List Action) :=
  match parse_args argv with
  | none => some (1, [])
  | some o =>
    match start_reps o.num_reps o.rep_time o.relax_time input with
    | none => none
    | some (result, _, events) =>
      some (0, Action.enterRaw :: Action.clearAndHide ::
        (events ++ [Action.resetScreen, Action.restoreMode, Action.printLine (finalMessage result)]))

/-- Spec-side trace (from §4.2 of the spec) of one uninterrupted countdown of
`count` seconds: frames `count, count-1, …, 1`, each followed by a
one-second sleep. -/
def countdownTrace (c : Color) (label : String) : Nat → List Action
  | 0 => []
  | n + 1 =>
    Action.render (Frame.count c label (n + 1)) :: Action.sleep 1000 :: countdownTrace c label n

/-- Spec-side trace of the last `k` repetitions of an uninterrupted session
(rep index `reps - k + 1` up to `reps`, each an active countdown then a
relax countdown). -/
def repsTrace (reps time tbr : Nat) : Nat → List Action
  | 0 => []
  | k + 1 =>
    countdownTrace Color.red ("Rep " ++ toString (reps - k) ++ "/" ++ toString reps) time
      ++ countdownTrace Color.green "Relax!" tbr ++ repsTrace reps time tbr k

/-- Spec-side trace of a whole uninterrupted session (§4.2 "run session"):
the 3-second intro, then each repetition in order. -/
def sessionTrace (reps time tbr : Nat) : List Action :=
  countdownTrace Color.blue "Starting in" 3 ++ repsTrace reps time tbr reps

/-- Number of rendered frames in a trace. -/
def renderCount : List Action → Nat
  | [] => 0
  | Action.render _ :: rest => renderCount rest + 1
  | _ :: rest => renderCount rest

/-- Total number of one-second frames of an uninterrupted session. -/
def totalSeconds (reps time tbr : Nat) : Nat :=
  3 + reps * (time + tbr)

/-! ### Lemmas about `consume_all_keystrokes` -/

theorem consumeLoop_map_ok_no_exit (bytes : List Nat) :
    ∀ (rv : Option Unit), (∀ b ∈ bytes, b ≠ 27 ∧ b ≠ 3) →
      consumeLoop rv (bytes.map Except.ok) =
        (Except.ok (if bytes = [] then rv else some ()), []) := by
  induction bytes with
  | nil => intro rv _; simp [consumeLoop]
  | cons b rest ih =>
    intro rv h
    have hb := h b (List.mem_cons_self b rest)
    simp only [List.map_cons, consumeLoop]
    rw [if_neg hb.1, if_neg hb.2, ih (some ()) fun x hx => h x (List.mem_cons_of_mem b hx)]
    simp

theorem consumeLoop_map_ok_exit (bytes : List Nat) :
    ∀ (rv : Option Unit), (27 ∈ bytes ∨ 3 ∈ bytes) →
      (consumeLoop rv (bytes.map Except.ok)).1 = Except.error "Exiting" := by
  induction bytes with
  | nil => intro rv h; simp at h
  | cons b rest ih =>
    intro rv h
    by_cases h27 : b = 27
    · subst h27; simp [consumeLoop]
    · by_cases h3 : b = 3
      · subst h3; simp [consumeLoop]
      · have h' : 27 ∈ rest ∨ 3 ∈ rest := by
          rcases h with h | h
          · rcases List.mem_cons.mp h with he | hm
            · exact absurd he.symm h27
            · exact Or.inl hm
          · rcases List.mem_cons.mp h with he | hm
            · exact absurd he.symm h3
            · exact Or.inr hm
        simp only [List.map_cons, consumeLoop]
        rw [if_neg h27, if_neg h3]
        exact ih (some ()) h'

theorem consumeLoop_ok_snd_nil (batch : Batch) :
    ∀ (rv r : Option Unit) (rem : Batch),
      consumeLoop rv batch = (Except.ok r, rem) → rem = [] := by
  induction batch with
  | nil =>
    intro rv r rem h
    simp only [consumeLoop, Prod.mk.injEq] at h
    exact h.2.symm
  | cons e rest ih =>
    intro rv r rem h
    cases e with
    | ok b =>
      by_cases h27 : b = 27
      · subst h27; simp [consumeLoop] at h
      · by_cases h3 : b = 3
        · subst h3; simp [consumeLoop] at h
        · simp only [consumeLoop] at h
          rw [if_neg h27, if_neg h3] at h
          exact ih (some ()) r rem h
    | error er => simp [consumeLoop] at h

theorem consumeLoop_stop_snd (pre : List Nat) :
    ∀ (e : KeyEvent) (rest : Batch) (rv : Option Unit),
      (∀ b ∈ pre, b ≠ 27 ∧ b ≠ 3) →
      (e = Except.ok 27 ∨ e = Except.ok 3 ∨ ∃ m, e = Except.error m) →
      (consumeLoop rv (pre.map Except.ok ++ e :: rest)).2 = rest := by
  induction pre with
  | nil =>
    intro e rest rv _ he
    rcases he with rfl | rfl | ⟨m, rfl⟩ <;> simp [consumeLoop]
  | cons b pre ih =>
    intro e rest rv hpre he
    have hb := hpre b (List.mem_cons_self b pre)
    simp only [List.map_cons, List.cons_append, consumeLoop]
    rw [if_neg hb.1, if_neg hb.2]
    exact ih e rest (some ()) (fun x hx => hpre x (List.mem_cons_of_mem b hx)) he

theorem consumeLoop_read_error (pre : List Nat) :
    ∀ (msg : String) (rest : Batch) (rv : Option Unit),
      (∀ b ∈ pre, b ≠ 27 ∧ b ≠ 3) →
      consumeLoop rv (pre.map Except.ok ++ Except.error msg :: rest) =
        (Except.error ("Error: " ++ msg), rest) := by
  induction pre with
  | nil => intro msg rest rv _; simp [consumeLoop]
  | cons b pre ih =>
    intro msg rest rv hpre
    have hb := hpre b (List.mem_cons_self b pre)
    simp only [List.map_cons, List.cons_append, consumeLoop]
    rw [if_neg hb.1, if_neg hb.2]
    exact ih msg rest (some ()) fun x hx => hpre x (List.mem_cons_of_mem b hx)

/-! ### Lemmas about `handle_pause` and `pauseLoop` -/

theorem handle_pause_nil : handle_pause [] = some (Except.ok (), [], []) := rfl

theorem handle_pause_empty_batch (rest : List Batch) :
    handle_pause (([] : Batch) :: rest) = some (Except.ok (), rest, []) := rfl

theorem handle_pause_fst_error (b : Batch) (rest : List Batch) (e : String)
    (h : (consume_all_keystrokes b).1 = Except.error e) :
    handle_pause (b :: rest) = some (Except.error e, rest, []) := by
  rcases hc : consume_all_keystrokes b with ⟨r, w⟩
  rw [hc] at h
  simp only at h
  subst h
  simp [handle_pause, hc]

theorem handle_pause_fst_empty (b : Batch) (rest : List Batch)
    (h : (consume_all_keystrokes b).1 = Except.ok none) :
    handle_pause (b :: rest) = some (Except.ok (), rest, []) := by
  rcases hc : consume_all_keystrokes b with ⟨r, w⟩
  rw [hc] at h
  simp only at h
  subst h
  simp [handle_pause, hc]

theorem pauseLoop_empties_then (k : Nat) :
    ∀ (b : Batch) (rest : List Batch),
      (((consume_all_keystrokes b).1 = Except.ok (some ()) →
        pauseLoop (List.replicate k ([] : Batch) ++ b :: rest) =
          some (Except.ok (), rest, List.replicate k (Action.sleep 500))) ∧
       (∀ e, (consume_all_keystrokes b).1 = Except.error e →
        pauseLoop (List.replicate k ([] : Batch) ++ b :: rest) =
          some (Except.error e, rest, List.replicate k (Action.sleep 500)))) := by
  induction k with
  | zero =>
    intro b rest
    constructor
    · intro h
      rcases hc : consume_all_keystrokes b with ⟨r, w⟩
      rw [hc] at h
      simp only at h
      subst h
      simp [pauseLoop, hc]
    · intro e h
      rcases hc : consume_all_keystrokes b with ⟨r, w⟩
      rw [hc] at h
      simp only at h
      subst h
      simp [pauseLoop, hc]
  | succ k ih =>
    intro b rest
    constructor
    · intro h
      rw [List.replicate_succ, List.cons_append]
      simp only [pauseLoop, consume_all_keystrokes, consumeLoop]
      rw [(ih b rest).1 h]
      simp [List.replicate_succ]
    · intro e h
      rw [List.replicate_succ, List.cons_append]
      simp only [pauseLoop, consume_all_keystrokes, consumeLoop]
      rw [(ih b rest).2 e h]
      simp [List.replicate_succ]

theorem handle_pause_paused (b : Batch) (k : Nat) (b' : Batch) (rest : List Batch)
    (hb : (consume_all_keystrokes b).1 = Except.ok (some ())) :
    (((consume_all_keystrokes b').1 = Except.ok (some ()) →
      handle_pause (b :: (List.replicate k ([] : Batch) ++ b' :: rest)) =
        some (Except.ok (), rest,
          Action.render Frame.pause :: List.replicate k (Action.sleep 500))) ∧
     (∀ e, (consume_all_keystrokes b').1 = Except.error e →
      handle_pause (b :: (List.replicate k ([] : Batch) ++ b' :: rest)) =
        some (Except.error e, rest,
          Action.render Frame.pause :: List.replicate k (Action.sleep 500)))) := by
  rcases hc : consume_all_keystrokes b with ⟨r, w⟩
  rw [hc] at hb
  simp only at hb
  subst hb
  constructor
  · intro h
    simp only [handle_pause, hc]
    rw [(pauseLoop_empties_then k b' rest).1 h]
  · intro e h
    simp only [handle_pause, hc]
    rw [(pauseLoop_empties_then k b' rest).2 e h]

/-! ### Lemmas about `countdown` -/

theorem countdown_zero (label : String) (c : Color) (input : List Batch) :
    countdown label c 0 input = some (Except.ok (), input, []) := rfl

theorem countdown_nil (label : String) (c : Color) (n : Nat) :
    countdown label c n [] = some (Except.ok (), [], countdownTrace c label n) := by
  induction n with
  | zero => rfl
  | succ n ih => simp [countdown, handle_pause_nil, ih, countdownTrace]

theorem countdown_length_trace (c : Color) (label : String) (n : Nat) :
    (countdownTrace c label n).length = 2 * n := by
  induction n with
  | zero => rfl
  | succ n ih => simp [countdownTrace, ih]; omega

theorem countdown_empties (count : Nat) :
    ∀ (n : Nat) (label : String) (c : Color) (rest : List Batch), count ≤ n →
      countdown label c count (List.replicate n ([] : Batch) ++ rest) =
        some (Except.ok (), List.replicate (n - count) ([] : Batch) ++ rest,
          countdownTrace c label count) := by
  induction count with
  | zero => intro n label c rest _; simp [countdown, countdownTrace]
  | succ m ih =>
    intro n label c rest hle
    obtain ⟨n', rfl⟩ : ∃ n', n = n' + 1 := ⟨n - 1, by omega⟩
    rw [List.replicate_succ, List.cons_append]
    simp only [countdown, handle_pause_empty_batch]
    rw [ih n' label c rest (by omega)]
    simp [countdownTrace, Nat.succ_sub_succ]

theorem countdown_exit (n : Nat) :
    ∀ (count : Nat) (label : String) (c : Color) (b : Batch) (rest : List Batch) (e : String),
      n < count → (consume_all_keystrokes b).1 = Except.error e →
      countdown label c count (List.replicate n ([] : Batch) ++ b :: rest) =
        some (Except.error e, rest, List.take (2 * (n + 1)) (countdownTrace c label count)) := by
  induction n with
  | zero =>
    intro count label c b rest e hlt h
    obtain ⟨m, rfl⟩ : ∃ m, count = m + 1 := ⟨count - 1, by omega⟩
    simp only [List.replicate_zero, List.nil_append]
    simp [countdown, handle_pause_fst_error b rest e h, countdownTrace]
  | succ n ih =>
    intro count label c b rest e hlt h
    obtain ⟨m, rfl⟩ : ∃ m, count = m + 1 := ⟨count - 1, by omega⟩
    rw [List.replicate_succ, List.cons_append]
    simp only [countdown, handle_pause_empty_batch]
    rw [ih m label c b rest e (by omega) h]
    have h2 : 2 * (n + 1 + 1) = 2 * (n + 1) + 1 + 1 := by ring
    simp only [countdownTrace, h2, List.take_succ_cons, List.nil_append]

/-! ### Lemmas about `repsLoop` and `start_reps` -/

theorem take_append_left_full {α : Type} (A B : List α) (j : Nat) (h : A.length ≤ j) :
    List.take j (A ++ B) = A ++ List.take (j - A.length) B := by
  rw [List.take_append_eq_append_take, List.take_of_length_le h]

theorem repsLoop_nil (reps t x : Nat) (k : Nat) :
    repsLoop reps t x k [] = some (Except.ok (), [], repsTrace reps t x k) := by
  induction k with
  | zero => rfl
  | succ k ih => simp [repsLoop, countdown_nil, ih, repsTrace]

theorem repsLoop_exit (k : Nat) :
    ∀ (n reps t x : Nat) (b : Batch) (rest : List Batch) (e : String),
      n < k * (t + x) → (consume_all_keystrokes b).1 = Except.error e →
      repsLoop reps t x k (List.replicate n ([] : Batch) ++ b :: rest) =
        some (Except.error e, rest, List.take (2 * (n + 1)) (repsTrace reps t x k)) := by
  induction k with
  | zero => intro n reps t x b rest e hlt _; omega
  | succ k ih =>
    intro n reps t x b rest e hlt hb
    by_cases h1 : n < t
    · have hc := countdown_exit n t ("Rep " ++ toString (reps - k) ++ "/" ++ toString reps)
        Color.red b rest e h1 hb
      simp only [repsLoop, hc]
      rw [repsTrace,
        List.take_append_of_le_length
          (by rw [List.length_append, countdown_length_trace, countdown_length_trace]; omega),
        List.take_append_of_le_length (by rw [countdown_length_trace]; omega)]
    · by_cases h2 : n - t < x
      · have hsplit : List.replicate n ([] : Batch) ++ b :: rest =
            List.replicate t ([] : Batch) ++ (List.replicate (n - t) ([] : Batch) ++ b :: rest) := by
          rw [← List.append_assoc, ← List.replicate_add]
          congr 2
          omega
        rw [hsplit]
        have hc1 : countdown ("Rep " ++ toString (reps - k) ++ "/" ++ toString reps) Color.red t
            (List.replicate t ([] : Batch) ++ (List.replicate (n - t) ([] : Batch) ++ b :: rest)) =
            some (Except.ok (), List.replicate (n - t) ([] : Batch) ++ b :: rest,
              countdownTrace Color.red ("Rep " ++ toString (reps - k) ++ "/" ++ toString reps) t) := by
          simpa using countdown_empties t t
            ("Rep " ++ toString (reps - k) ++ "/" ++ toString reps) Color.red _ (le_refl t)
        have hc2 := countdown_exit (n - t) x "Relax!" Color.green b rest e h2 hb
        simp only [repsLoop, hc1, hc2]
        rw [repsTrace,
          List.take_append_of_le_length
            (by rw [List.length_append, countdown_length_trace, countdown_length_trace]; omega),
          take_append_left_full _ _ _ (by rw [countdown_length_trace]; omega)]
        rw [countdown_length_trace]
        have harith : 2 * (n + 1) - 2 * t = 2 * (n - t + 1) := by omega
        rw [harith]
      · have hbound : n - t - x < k * (t + x) := by
          have hexp : (k + 1) * (t + x) = k * (t + x) + (t + x) := by ring
          omega
        have hsplit : List.replicate n ([] : Batch) ++ b :: rest =
            List.replicate t ([] : Batch) ++ (List.replicate x ([] : Batch) ++
              (List.replicate (n - t - x) ([] : Batch) ++ b :: rest)) := by
          rw [← List.append_assoc, ← List.append_assoc, ← List.replicate_add,
            ← List.replicate_add]
          congr 2
          omega
        rw [hsplit]
        have hc1 : countdown ("Rep " ++ toString (reps - k) ++ "/" ++ toString reps) Color.red t
            (List.replicate t ([] : Batch) ++ (List.replicate x ([] : Batch) ++
              (List.replicate (n - t - x) ([] : Batch) ++ b :: rest))) =
            some (Except.ok (), List.replicate x ([] : Batch) ++
              (List.replicate (n - t - x) ([] : Batch) ++ b :: rest),
              countdownTrace Color.red ("Rep " ++ toString (reps - k) ++ "/" ++ toString reps) t) := by
          simpa using countdown_empties t t
            ("Rep " ++ toString (reps - k) ++ "/" ++ toString reps) Color.red _ (le_refl t)
        have hc2 : countdown "Relax!" Color.green x
            (List.replicate x ([] : Batch) ++ (List.replicate (n - t - x) ([] : Batch) ++ b :: rest)) =
            some (Except.ok (), List.replicate (n - t - x) ([] : Batch) ++ b :: rest,
              countdownTrace Color.green "Relax!" x) := by
          simpa using countdown_empties x x "Relax!" Color.green _ (le_refl x)
        have hrec := ih (n - t - x) reps t x b rest e hbound hb
        simp only [repsLoop, hc1, hc2, hrec]
        rw [repsTrace,
          take_append_left_full _ _ _
            (by rw [List.length_append, countdown_length_trace, countdown_length_trace]; omega)]
        rw [List.length_append, countdown_length_trace, countdown_length_trace]
        have harith : 2 * (n + 1) - (2 * t + 2 * x) = 2 * (n - t - x + 1) := by omega
        rw [harith]

theorem start_reps_nil_eq (R t x : Nat) :
    start_reps R t x [] = some (Except.ok (), [], sessionTrace R t x) := by
  simp [start_reps, countdown_nil, repsLoop_nil, sessionTrace]

theorem start_reps_abort (R t x n : Nat) (b : Batch) (rest : List Batch) (e : String)
    (hn : n < totalSeconds R t x) (hb : (consume_all_keystrokes b).1 = Except.error e) :
    start_reps R t x (List.replicate n ([] : Batch) ++ b :: rest) =
      some (Except.error e, rest, List.take (2 * (n + 1)) (sessionTrace R t x)) := by
  simp only [totalSeconds] at hn
  by_cases h3 : n < 3
  · have hc := countdown_exit n 3 "Starting in" Color.blue b rest e h3 hb
    simp only [start_reps, hc]
    rw [sessionTrace, List.take_append_of_le_length (by rw [countdown_length_trace]; omega)]
  · have hsplit : List.replicate n ([] : Batch) ++ b :: rest =
        List.replicate 3 ([] : Batch) ++ (List.replicate (n - 3) ([] : Batch) ++ b :: rest) := by
      rw [← List.append_assoc, ← List.replicate_add]
      congr 2
      omega
    rw [hsplit]
    have hc1 : countdown "Starting in" Color.blue 3
        (List.replicate 3 ([] : Batch) ++ (List.replicate (n - 3) ([] : Batch) ++ b :: rest)) =
        some (Except.ok (), List.replicate (n - 3) ([] : Batch) ++ b :: rest,
          countdownTrace Color.blue "Starting in" 3) := by
      have h0 := countdown_empties 3 3 "Starting in" Color.blue
        (List.replicate (n - 3) ([] : Batch) ++ b :: rest) (le_refl 3)
      simp only [Nat.sub_self, List.replicate_zero, List.nil_append] at h0
      exact h0
    have hrec := repsLoop_exit R (n - 3) R t x b rest e (by omega) hb
    simp only [start_reps, hc1, hrec]
    rw [sessionTrace, take_append_left_full _ _ _ (by rw [countdown_length_trace]; omega)]
    rw [countdown_length_trace]
    have harith : 2 * (n + 1) - 2 * 3 = 2 * (n - 3 + 1) := by omega
    rw [harith]

/-! ### Counting rendered frames -/

theorem renderCount_append (l1 l2 : List Action) :
    renderCount (l1 ++ l2) = renderCount l1 + renderCount l2 := by
  induction l1 with
  | nil => simp [renderCount]
  | cons a l ih =>
    cases a <;> simp [renderCount, ih]
    all_goals omega

theorem renderCount_countdownTrace (c : Color) (label : String) (n : Nat) :
    renderCount (countdownTrace c label n) = n := by
  induction n with
  | zero => rfl
  | succ n ih => simp [countdownTrace, renderCount, ih]

theorem renderCount_repsTrace (reps t x : Nat) (k : Nat) :
    renderCount (repsTrace reps t x k) = k * (t + x) := by
  induction k with
  | zero => simp [repsTrace, renderCount]
  | succ k ih =>
    simp only [repsTrace, renderCount_append, renderCount_countdownTrace, ih, Nat.succ_mul]
    ring

theorem renderCount_sessionTrace (R t x : Nat) :
    renderCount (sessionTrace R t x) = 3 + R * (t + x) := by
  simp [sessionTrace, renderCount_append, renderCount_countdownTrace, renderCount_repsTrace]

/-! ### Shape of the actions emitted while the session runs -/

/-- The phases emit only frame renders and sleeps. -/
def phaseAction (a : Action) : Prop :=
  (∃ f, a = Action.render f) ∨ ∃ ms, a = Action.sleep ms

theorem pauseLoop_actions (input : List Batch) :
    ∀ (r : Except String Unit) (rem : List Batch) (evs : List Action),
      pauseLoop input = some (r, rem, evs) → ∀ a ∈ evs, a = Action.sleep 500 := by
  induction input with
  | nil => intro r rem evs h; simp [pauseLoop] at h
  | cons b rest ih =>
    intro r rem evs h
    simp only [pauseLoop] at h
    split at h
    · simp only [Option.some.injEq, Prod.mk.injEq] at h
      intro a ha
      rw [← h.2.2] at ha
      simp at ha
    · simp only [Option.some.injEq, Prod.mk.injEq] at h
      intro a ha
      rw [← h.2.2] at ha
      simp at ha
    · split at h
      · exact absurd h (by simp)
      · rename_i r2 rem2 evs2 heq
        simp only [Option.some.injEq, Prod.mk.injEq] at h
        intro a ha
        rw [← h.2.2] at ha
        rcases List.mem_cons.mp ha with rfl | hm
        · rfl
        · exact ih r2 rem2 evs2 heq a hm

theorem handle_pause_actions (input : List Batch) :
    ∀ (r : Except String Unit) (rem : List Batch) (evs : List Action),
      handle_pause input = some (r, rem, evs) →
      ∀ a ∈ evs, a = Action.render Frame.pause ∨ a = Action.sleep 500 := by
  cases input with
  | nil =>
    intro r rem evs h
    simp only [handle_pause, Option.some.injEq, Prod.mk.injEq] at h
    intro a ha
    rw [← h.2.2] at ha
    simp at ha
  | cons b rest =>
    intro r rem evs h
    simp only [handle_pause] at h
    split at h
    · simp only [Option.some.injEq, Prod.mk.injEq] at h
      intro a ha
      rw [← h.2.2] at ha
      simp at ha
    · simp only [Option.some.injEq, Prod.mk.injEq] at h
      intro a ha
      rw [← h.2.2] at ha
      simp at ha
    · split at h
      · exact absurd h (by simp)
      · rename_i r2 rem2 evs2 heq
        simp only [Option.some.injEq, Prod.mk.injEq] at h
        intro a ha
        rw [← h.2.2] at ha
        rcases List.mem_cons.mp ha with rfl | hm
        · exact Or.inl rfl
        · exact Or.inr (pauseLoop_actions rest r2 rem2 evs2 heq a hm)

theorem countdown_actions (d : Nat) :
    ∀ (label : String) (c : Color) (input : List Batch) (r : Except String Unit)
      (rem : List Batch) (evs : List Action),
      countdown label c d input = some (r, rem, evs) →
      ∀ a ∈ evs, (∃ s, 1 ≤ s ∧ a = Action.render (Frame.count c label s)) ∨
        a = Action.render Frame.pause ∨ a = Action.sleep 1000 ∨ a = Action.sleep 500 := by
  induction d with
  | zero =>
    intro label c input r rem evs h
    simp only [countdown, Option.some.injEq, Prod.mk.injEq] at h
    intro a ha
    rw [← h.2.2] at ha
    simp at ha
  | succ n ih =>
    intro label c input r rem evs h
    simp only [countdown] at h
    split at h
    · exact absurd h (by simp)
    · rename_i e rem1 pevs heq
      simp only [Option.some.injEq, Prod.mk.injEq] at h
      intro a ha
      rw [← h.2.2] at ha
      rcases List.mem_cons.mp ha with rfl | ha2
      · exact Or.inl ⟨n + 1, by omega, rfl⟩
      rcases List.mem_cons.mp ha2 with rfl | ha3
      · exact Or.inr (Or.inr (Or.inl rfl))
      rcases handle_pause_actions input _ _ _ heq a ha3 with hp | hp
      · exact Or.inr (Or.inl hp)
      · exact Or.inr (Or.inr (Or.inr hp))
    · rename_i u rem1 pevs heq
      split at h
      · exact absurd h (by simp)
      · rename_i r2 rem2 evs2 heq2
        simp only [Option.some.injEq, Prod.mk.injEq] at h
        intro a ha
        rw [← h.2.2] at ha
        rcases List.mem_cons.mp ha with rfl | ha2
        · exact Or.inl ⟨n + 1, by omega, rfl⟩
        rcases List.mem_cons.mp ha2 with rfl | ha3
        · exact Or.inr (Or.inr (Or.inl rfl))
        rcases List.mem_append.mp ha3 with hmem | hmem
        · rcases handle_pause_actions input _ _ _ heq a hmem with hp | hp
          · exact Or.inr (Or.inl hp)
          · exact Or.inr (Or.inr (Or.inr hp))
        · exact ih label c rem1 r2 rem2 evs2 heq2 a hmem

theorem countdown_phase_actions (d : Nat) (label : String) (c : Color) (input : List Batch)
    (r : Except String Unit) (rem : List Batch) (evs : List Action)
    (h : countdown label c d input = some (r, rem, evs)) :
    ∀ a ∈ evs, phaseAction a := by
  intro a ha
  rcases countdown_actions d label c input r rem evs h a ha with ⟨s, _, rfl⟩ | rfl | rfl | rfl
  · exact Or.inl ⟨_, rfl⟩
  · exact Or.inl ⟨_, rfl⟩
  · exact Or.inr ⟨_, rfl⟩
  · exact Or.inr ⟨_, rfl⟩

theorem repsLoop_phase_actions (k : Nat) :
    ∀ (reps t x : Nat) (input : List Batch) (r : Except String Unit) (rem : List Batch)
      (evs : List Action),
      repsLoop reps t x k input = some (r, rem, evs) → ∀ a ∈ evs, phaseAction a := by
  induction k with
  | zero =>
    intro reps t x input r rem evs h
    simp only [repsLoop, Option.some.injEq, Prod.mk.injEq] at h
    intro a ha
    rw [← h.2.2] at ha
    simp at ha
  | succ k ih =>
    intro reps t x input r rem evs h
    simp only [repsLoop] at h
    split at h
    · exact absurd h (by simp)
    · rename_i e rem1 evs1 heq
      simp only [Option.some.injEq, Prod.mk.injEq] at h
      intro a ha
      rw [← h.2.2] at ha
      exact countdown_phase_actions _ _ _ _ _ _ _ heq a ha
    · rename_i u rem1 evs1 heq
      split at h
      · exact absurd h (by simp)
      · rename_i e2 rem2 evs2 heq2
        simp only [Option.some.injEq, Prod.mk.injEq] at h
        intro a ha
        rw [← h.2.2] at ha
        rcases List.mem_append.mp ha with hm | hm
        · exact countdown_phase_actions _ _ _ _ _ _ _ heq a hm
        · exact countdown_phase_actions _ _ _ _ _ _ _ heq2 a hm
      · rename_i u2 rem2 evs2 heq2
        split at h
        · exact absurd h (by simp)
        · rename_i r3 rem3 evs3 heq3
          simp only [Option.some.injEq, Prod.mk.injEq] at h
          intro a ha
          rw [← h.2.2] at ha
          rcases List.mem_append.mp ha with hm | hm
          · rcases List.mem_append.mp hm with hm2 | hm2
            · exact countdown_phase_actions _ _ _ _ _ _ _ heq a hm2
            · exact countdown_phase_actions _ _ _ _ _ _ _ heq2 a hm2
          · exact ih reps t x rem2 r3 rem3 evs3 heq3 a hm

theorem start_reps_phase_actions (R t x : Nat) (input : List Batch)
    (r : Except String Unit) (rem : List Batch) (evs : List Action)
    (h : start_reps R t x input = some (r, rem, evs)) : ∀ a ∈ evs, phaseAction a := by
  simp only [start_reps] at h
  split at h
  · exact absurd h (by simp)
  · rename_i e rem1 evs1 heq
    simp only [Option.some.injEq, Prod.mk.injEq] at h
    intro a ha
    rw [← h.2.2] at ha
    exact countdown_phase_actions _ _ _ _ _ _ _ heq a ha
  · rename_i u rem1 evs1 heq
    split at h
    · exact absurd h (by simp)
    · rename_i r2 rem2 evs2 heq2
      simp only [Option.some.injEq, Prod.mk.injEq] at h
      intro a ha
      rw [← h.2.2] at ha
      rcases List.mem_append.mp ha with hm | hm
      · exact countdown_phase_actions _ _ _ _ _ _ _ heq a hm
      · exact repsLoop_phase_actions _ _ _ _ _ _ _ _ heq2 a hm

/-! ### The claims -/

/-- C1: for every `num_reps = R`, `rep_time` and `relax_time`, if the input
stream never yields a keystroke, the session renders exactly
`3 + R * (rep_time + relax_time)` one-second frames in order — the 3 intro
frames counting 3, 2, 1, then for each rep in increasing order `rep_time`
active frames followed by `relax_time` rest frames (the layout of
`sessionTrace`) — and the run returns Completed (`Except.ok`). -/
theorem start_reps_no_input_trace (R t x : Nat) :
    start_reps R t x [] = some (Except.ok (), [], sessionTrace R t x) ∧
    renderCount (sessionTrace R t x) = totalSeconds R t x :=
  ⟨start_reps_nil_eq R t x, by rw [renderCount_sessionTrace]; rfl⟩

/-- C2: one call to the drain operation returns Empty (`Ok(None)`) on an
empty batch, Activity (`Ok(Some)`) on a non-empty batch of keystroke bytes
containing no exit byte, and ExitRequested (`Err "Exiting"`) whenever an
exit byte (27 or 3) occurs at any position, even with other keystrokes
before or after it. -/
theorem consume_all_keystrokes_classification :
    consume_all_keystrokes [] = (Except.ok none, []) ∧
    (∀ bytes : List Nat, bytes ≠ [] → (∀ b ∈ bytes, b ≠ 27 ∧ b ≠ 3) →
      consume_all_keystrokes (bytes.map Except.ok) = (Except.ok (some ()), [])) ∧
    (∀ bytes : List Nat, (27 ∈ bytes ∨ 3 ∈ bytes) →
      (consume_all_keystrokes (bytes.map Except.ok)).1 = Except.error "Exiting") := by
  refine ⟨rfl, ?_, ?_⟩
  · intro bytes hne hno
    rw [consume_all_keystrokes, consumeLoop_map_ok_no_exit bytes none hno, if_neg hne]
  · intro bytes hex
    exact consumeLoop_map_ok_exit bytes none hex

theorem consume_all_keystrokes_classification_witness :
    consume_all_keystrokes (([65] : List Nat).map Except.ok) = (Except.ok (some ()), []) ∧
    (consume_all_keystrokes (([65, 27, 66] : List Nat).map Except.ok)).1 =
      Except.error "Exiting" :=
  ⟨consume_all_keystrokes_classification.2.1 [65] (by simp) (by decide),
   consume_all_keystrokes_classification.2.2 [65, 27, 66] (by decide)⟩

/-- C3 as stated is false: on a batch where the exit byte is followed by
another keystroke, the call returns ExitRequested but leaves the later
byte unread in the buffer. -/
theorem consume_all_keystrokes_unread_remainder :
    (consume_all_keystrokes [Except.ok 27, Except.ok 65]).1 = Except.error "Exiting" ∧
    (consume_all_keystrokes [Except.ok 27, Except.ok 65]).2 = [Except.ok 65] ∧
    ([Except.ok 65] : Batch) ≠ [] :=
  ⟨rfl, rfl, by simp⟩

/-- C3 (amended): a single call consumes the whole buffered batch when it
reports Empty or Activity; when it reports ExitRequested or a read error it
stops at the triggering event, leaving exactly the part of the batch after
that event unread. -/
theorem consume_all_keystrokes_drain_amended :
    (∀ (batch : Batch) (r : Option Unit) (rem : Batch),
      consume_all_keystrokes batch = (Except.ok r, rem) → rem = []) ∧
    (∀ (pre : List Nat) (e : KeyEvent) (rest : Batch),
      (∀ b ∈ pre, b ≠ 27 ∧ b ≠ 3) →
      (e = Except.ok 27 ∨ e = Except.ok 3 ∨ ∃ m, e = Except.error m) →
      (consume_all_keystrokes (pre.map Except.ok ++ e :: rest)).2 = rest) := by
  constructor
  · intro batch r rem h
    exact consumeLoop_ok_snd_nil batch none r rem h
  · intro pre e rest hpre he
    exact consumeLoop_stop_snd pre e rest none hpre he

theorem consume_all_keystrokes_drain_amended_witness :
    (consume_all_keystrokes [Except.ok 65, Except.ok 66]).2 = ([] : Batch) ∧
    (consume_all_keystrokes (([65] : List Nat).map Except.ok ++
      Except.ok 27 :: [Except.ok 99])).2 = [Except.ok 99] :=
  ⟨consume_all_keystrokes_drain_amended.1 [Except.ok 65, Except.ok 66] (some ())
      ((consume_all_keystrokes [Except.ok 65, Except.ok 66]).2) rfl,
   consume_all_keystrokes_drain_amended.2 [65] (Except.ok 27) [Except.ok 99]
      (by decide) (Or.inl rfl)⟩

/-- C4: if an exit byte (27 or 3) arrives in the batch seen by the
`n+1`-st pause check of the run (for any `n` below the total number of
seconds, i.e. during any phase), the session returns Aborted with reason
"Exiting" at that check, the emitted trace is exactly the first `2*(n+1)`
actions of the uninterrupted trace — so no frame is rendered after the
check — and all later phases are skipped. -/
theorem start_reps_exit_signal_aborts (R t x n : Nat) (bytes : List Nat) (rest : List Batch)
    (hn : n < totalSeconds R t x) (hexit : 27 ∈ bytes ∨ 3 ∈ bytes) :
    start_reps R t x (List.replicate n ([] : Batch) ++ (bytes.map Except.ok) :: rest) =
      some (Except.error "Exiting", rest, List.take (2 * (n + 1)) (sessionTrace R t x)) :=
  start_reps_abort R t x n (bytes.map Except.ok) rest "Exiting" hn
    (consumeLoop_map_ok_exit bytes none hexit)

theorem start_reps_exit_signal_aborts_witness :
    start_reps 1 3 2 (List.replicate 4 ([] : Batch) ++ (([27] : List Nat).map Except.ok) :: []) =
      some (Except.error "Exiting", [], List.take (2 * (4 + 1)) (sessionTrace 1 3 2)) :=
  start_reps_exit_signal_aborts 1 3 2 4 [27] [] (by decide) (by decide)

/-- C5: `handle_pause` returns at once, pausing and rendering nothing, on an
Empty poll; on Activity it renders the "PAUSE" frame once and then polls
every 500 ms, waiting through Empty polls, returning success on a new
Activity (resume) and propagating an ExitRequested or read error as the
terminating abort; and on resume the enclosing countdown continues with the
remaining `n` seconds, neither skipping nor repeating the in-progress
second. -/
theorem handle_pause_spec :
    (handle_pause [] = some (Except.ok (), [], []) ∧
     ∀ rest, handle_pause (([] : Batch) :: rest) = some (Except.ok (), rest, [])) ∧
    (∀ (b : Batch) (k : Nat) (b' : Batch) (rest : List Batch),
      (consume_all_keystrokes b).1 = Except.ok (some ()) →
      (consume_all_keystrokes b').1 = Except.ok (some ()) →
      handle_pause (b :: (List.replicate k ([] : Batch) ++ b' :: rest)) =
        some (Except.ok (), rest,
          Action.render Frame.pause :: List.replicate k (Action.sleep 500))) ∧
    (∀ (b : Batch) (k : Nat) (b' : Batch) (rest : List Batch) (e : String),
      (consume_all_keystrokes b).1 = Except.ok (some ()) →
      (consume_all_keystrokes b').1 = Except.error e →
      handle_pause (b :: (List.replicate k ([] : Batch) ++ b' :: rest)) =
        some (Except.error e, rest,
          Action.render Frame.pause :: List.replicate k (Action.sleep 500))) ∧
    (∀ (b : Batch) (rest : List Batch) (e : String),
      (consume_all_keystrokes b).1 = Except.error e →
      handle_pause (b :: rest) = some (Except.error e, rest, [])) ∧
    (∀ (label : String) (c : Color) (n : Nat) (input rem rem2 : List Batch)
       (pevs evs : List Action) (r : Except String Unit),
      handle_pause input = some (Except.ok (), rem, pevs) →
      countdown label c n rem = some (r, rem2, evs) →
      countdown label c (n + 1) input =
        some (r, rem2, Action.render (Frame.count c label (n + 1)) ::
          Action.sleep 1000 :: (pevs ++ evs))) := by
  refine ⟨⟨handle_pause_nil, handle_pause_empty_batch⟩, ?_, ?_, handle_pause_fst_error, ?_⟩
  · intro b k b' rest hb hb'
    exact (handle_pause_paused b k b' rest hb).1 hb'
  · intro b k b' rest e hb hb'
    exact (handle_pause_paused b k b' rest hb).2 e hb'
  · intro label c n input rem rem2 pevs evs r hp hc
    simp [countdown, hp, hc]

theorem handle_pause_spec_witness :
    handle_pause [[Except.ok 65], [], [Except.ok 66]] =
      some (Except.ok (), [],
        Action.render Frame.pause :: List.replicate 1 (Action.sleep 500)) ∧
    handle_pause [[Except.ok 65], [Except.ok 27]] =
      some (Except.error "Exiting", [],
        Action.render Frame.pause :: List.replicate 0 (Action.sleep 500)) ∧
    handle_pause [[Except.ok 27], [Except.ok 9]] =
      some (Except.error "Exiting", [[Except.ok 9]], []) ∧
    countdown "Rep 1/1" Color.red (0 + 1) [[Except.ok 65], [Except.ok 66]] =
      some (Except.ok (), [], Action.render (Frame.count Color.red "Rep 1/1" (0 + 1)) ::
        Action.sleep 1000 :: ([Action.render Frame.pause] ++ [])) :=
  ⟨handle_pause_spec.2.1 [Except.ok 65] 1 [Except.ok 66] [] rfl rfl,
   handle_pause_spec.2.2.1 [Except.ok 65] 0 [Except.ok 27] [] "Exiting" rfl rfl,
   handle_pause_spec.2.2.2.1 [Except.ok 27] [[Except.ok 9]] "Exiting" rfl,
   handle_pause_spec.2.2.2.2 "Rep 1/1" Color.red 0 [[Except.ok 65], [Except.ok 66]] [] []
     [Action.render Frame.pause] [] (Except.ok ()) rfl rfl⟩

/-- C6: a countdown phase of duration `d` iterates the seconds from `d`
down to 1 — rendering the remaining-seconds frame, sleeping one second, and
then running the pause check, in that order, for each second (the layout of
`countdownTrace`) — never renders a frame showing 0, and a duration-0 phase
completes with no rendered frame and no delay. -/
theorem countdown_spec :
    (∀ (label : String) (c : Color) (input : List Batch),
      countdown label c 0 input = some (Except.ok (), input, [])) ∧
    (∀ (label : String) (c : Color) (d : Nat),
      countdown label c d [] = some (Except.ok (), [], countdownTrace c label d)) ∧
    (∀ (label : String) (c : Color) (d : Nat) (input : List Batch)
       (r : Except String Unit) (rem : List Batch) (evs : List Action),
      countdown label c d input = some (r, rem, evs) →
      ∀ (c' : Color) (l' : String), Action.render (Frame.count c' l' 0) ∉ evs) := by
  refine ⟨countdown_zero, countdown_nil, ?_⟩
  intro label c d input r rem evs h c' l' hmem
  rcases countdown_actions d label c input r rem evs h _ hmem with ⟨s, hs, hr⟩ | hr | hr | hr
  · simp only [Action.render.injEq, Frame.count.injEq] at hr
    obtain ⟨-, -, h0⟩ := hr
    omega
  all_goals simp at hr

theorem countdown_spec_witness :
    Action.render (Frame.count Color.blue "y" 0) ∉ countdownTrace Color.red "x" 2 :=
  countdown_spec.2.2 "x" Color.red 2 [] (Except.ok ()) [] (countdownTrace Color.red "x" 2)
    rfl Color.blue "y"

/-- C7: a failing read of the byte stream makes one drain call return a
read error whose message is "Error: " followed by the stream error — never
equal to "Exiting" — and the run treats it as fatal: the session result is
that error and `main` prints exactly that text as its final line. -/
theorem read_error_fatal :
    (∀ (pre : List Nat) (msg : String) (rest : Batch),
      (∀ b ∈ pre, b ≠ 27 ∧ b ≠ 3) →
      consume_all_keystrokes (pre.map Except.ok ++ Except.error msg :: rest) =
        (Except.error ("Error: " ++ msg), rest)) ∧
    (∀ msg : String, "Error: " ++ msg ≠ "Exiting") ∧
    (∀ (argv : List String) (o : Options) (input : List Batch) (e : String)
       (rem : List Batch) (evs : List Action),
      parse_args argv = some o →
      start_reps o.num_reps o.rep_time o.relax_time input = some (Except.error e, rem, evs) →
      main argv input = some (0, Action.enterRaw :: Action.clearAndHide ::
        (evs ++ [Action.resetScreen, Action.restoreMode, Action.printLine e]))) := by
  refine ⟨?_, ?_, ?_⟩
  · intro pre msg rest hpre
    exact consumeLoop_read_error pre msg rest none hpre
  · intro msg h
    have hd : ("Error: " ++ msg).data = "Exiting".data := by rw [h]
    rw [String.data_append] at hd
    have h1 : "Error: ".data = ['E', 'r', 'r', 'o', 'r', ':', ' '] := rfl
    have h2 : "Exiting".data = ['E', 'x', 'i', 't', 'i', 'n', 'g'] := rfl
    rw [h1, h2] at hd
    simp at hd
  · intro argv o input e rem evs hargs hrun
    simp [main, hargs, hrun, finalMessage]

theorem read_error_fatal_witness :
    consume_all_keystrokes (([] : List Nat).map Except.ok ++ Except.error "boom" :: []) =
      (Except.error ("Error: " ++ "boom"), []) ∧
    ("Error: " ++ "boom") ≠ "Exiting" ∧
    main ["1", "0", "0"] [[Except.error "boom"]] =
      some (0, Action.enterRaw :: Action.clearAndHide ::
        ([Action.render (Frame.count Color.blue "Starting in" 3), Action.sleep 1000] ++
          [Action.resetScreen, Action.restoreMode, Action.printLine ("Error: " ++ "boom")])) :=
  ⟨read_error_fatal.1 [] "boom" [] (by decide),
   read_error_fatal.2.1 "boom",
   read_error_fatal.2.2 ["1", "0", "0"] ⟨1, 0, 0⟩ [[Except.error "boom"]] ("Error: " ++ "boom")
     [] [Action.render (Frame.count Color.blue "Starting in" 3), Action.sleep 1000] rfl rfl⟩

/-- C8: the process prints "done" when the run returns Completed and the
abort reason text when it returns Aborted; the exit code is 1 only on an
argument-parse failure, so a terminating run — completed or aborted —
exits 0 with the outcome message printed last. -/
theorem main_exit_behavior :
    (∀ (argv : List String) (input : List Batch),
      parse_args argv = none → main argv input = some (1, [])) ∧
    finalMessage (Except.ok ()) = "done" ∧
    (∀ e, finalMessage (Except.error e) = e) ∧
    (∀ (argv : List String) (o : Options) (input : List Batch)
       (result : Except String Unit) (rem : List Batch) (evs : List Action),
      parse_args argv = some o →
      start_reps o.num_reps o.rep_time o.relax_time input = some (result, rem, evs) →
      ∃ front : List Action, main argv input =
        some (0, front ++ [Action.printLine (finalMessage result)])) := by
  refine ⟨?_, rfl, fun e => rfl, ?_⟩
  · intro argv input h
    simp [main, h]
  · intro argv o input result rem evs hargs hrun
    refine ⟨Action.enterRaw :: Action.clearAndHide ::
      (evs ++ [Action.resetScreen, Action.restoreMode]), ?_⟩
    simp [main, hargs, hrun]

theorem main_exit_behavior_witness :
    main ["x", "1", "0"] [] = some (1, []) ∧
    ∃ front : List Action, main ["2", "1", "0"] [] =
      some (0, front ++ [Action.printLine (finalMessage (Except.ok ()))]) :=
  ⟨main_exit_behavior.1 ["x", "1", "0"] [] rfl,
   main_exit_behavior.2.2.2 ["2", "1", "0"] ⟨2, 1, 0⟩ [] (Except.ok ()) []
     (sessionTrace 2 1 0) rfl rfl⟩

/-- C9: whenever the run terminates — normal completion, user exit, or
read error — the raw-mode restoration and the screen/cursor reset each
execute exactly once, after every frame of the run and before the final
outcome message, which is the last action. -/
theorem main_restores_terminal (argv : List String) (o : Options) (input : List Batch)
    (code : Nat) (acts : List Action)
    (hargs : parse_args argv = some o) (hmain : main argv input = some (code, acts)) :
    acts.count Action.restoreMode = 1 ∧ acts.count Action.resetScreen = 1 ∧
    ∃ (m : String) (front : List Action),
      acts = front ++ [Action.resetScreen, Action.restoreMode, Action.printLine m] ∧
      Action.restoreMode ∉ front ∧ Action.resetScreen ∉ front := by
  simp only [main, hargs] at hmain
  split at hmain
  · exact absurd hmain (by simp)
  · rename_i result rem2 events heq
    simp only [Option.some.injEq, Prod.mk.injEq] at hmain
    obtain ⟨hcode, hacts⟩ := hmain
    subst hacts
    have hev := start_reps_phase_actions o.num_reps o.rep_time o.relax_time input
      result rem2 events heq
    have hres : Action.restoreMode ∉ events := by
      intro hm
      rcases hev _ hm with ⟨f, hf⟩ | ⟨ms, hf⟩ <;> simp at hf
    have hscr : Action.resetScreen ∉ events := by
      intro hm
      rcases hev _ hm with ⟨f, hf⟩ | ⟨ms, hf⟩ <;> simp at hf
    refine ⟨?_, ?_, finalMessage result, Action.enterRaw :: Action.clearAndHide :: events,
      ?_, ?_, ?_⟩
    · simp [List.count_cons, List.count_append, List.count_eq_zero.mpr hres]
    · simp [List.count_cons, List.count_append, List.count_eq_zero.mpr hscr]
    · simp
    · simp [hres]
    · simp [hscr]

theorem main_restores_terminal_witness :
    (Action.enterRaw :: Action.clearAndHide :: (sessionTrace 1 1 0 ++
      [Action.resetScreen, Action.restoreMode,
        Action.printLine "done"])).count Action.restoreMode = 1 ∧
    (Action.enterRaw :: Action.clearAndHide :: (sessionTrace 1 1 0 ++
      [Action.resetScreen, Action.restoreMode,
        Action.printLine "done"])).count Action.resetScreen = 1 ∧
    ∃ (m : String) (front : List Action),
      Action.enterRaw :: Action.clearAndHide :: (sessionTrace 1 1 0 ++
        [Action.resetScreen, Action.restoreMode, Action.printLine "done"]) =
        front ++ [Action.resetScreen, Action.restoreMode, Action.printLine m] ∧
      Action.restoreMode ∉ front ∧ Action.resetScreen ∉ front :=
  main_restores_terminal ["1", "1", "0"] ⟨1, 1, 0⟩ [] 0
    (Action.enterRaw :: Action.clearAndHide :: (sessionTrace 1 1 0 ++
      [Action.resetScreen, Action.restoreMode, Action.printLine "done"])) rfl rfl

/-- C10: argument parsing accepts the value 0 for any of the three
arguments — any u32-parseable string is accepted, with no positivity
check — and with `num_reps = 0` the session runs only the 3-second intro
and returns Completed, while a phase duration of 0 completes with no
rendered frame and no delay. -/
theorem parse_zero_accepted :
    (∀ (a b c : String) (na nb nc : Nat),
      parse_u32 a = some na → parse_u32 b = some nb → parse_u32 c = some nc →
      parse_args [a, b, c] = some ⟨na, nb, nc⟩) ∧
    parse_u32 "0" = some 0 ∧
    (∀ t x, start_reps 0 t x [] =
      some (Except.ok (), [], countdownTrace Color.blue "Starting in" 3)) ∧
    (∀ (label : String) (c : Color) (input : List Batch),
      countdown label c 0 input = some (Except.ok (), input, [])) := by
  refine ⟨?_, rfl, ?_, countdown_zero⟩
  · intro a b c na nb nc ha hb hc
    simp [parse_args, ha, hb, hc]
  · intro t x
    have h := start_reps_nil_eq 0 t x
    simpa [sessionTrace, repsTrace] using h

theorem parse_zero_accepted_witness :
    parse_args ["0", "0", "5"] = some ⟨0, 0, 5⟩ :=
  parse_zero_accepted.1 "0" "0" "5" 0 0 5 rfl rfl rfl

end Reps
